import Mathlib

/-!
Verification development for the tiny-url service (`src/server.js`).

The service is an Express application over one Postgres table
`links(id serial, code varchar(8) unique, url text, clicks int,
last_clicked timestamp, created_at timestamp)`.  We embed the data model
and the five route handlers as pure Lean functions.  External effects are
made explicit:

* randomness (`Math.random` inside `generateCode`, server.js:56-64) is an
  injected stream `rand : Nat → Fin 62` giving the successive values of
  `Math.floor(Math.random() * chars.length)`;
* the well-formed-URL check (the external `is-url` package) is an injected
  predicate `isUrl : String → Bool`;
* timestamps (`NOW()`, `new Date()`) are injected `Nat` parameters;
* the database table is a `List Link` carried in a `ServerState`, together
  with the next value of the `id` serial column.

SQL executed by the handlers is modelled by its standard Postgres
semantics: `WHERE code = $1` filters on equality, `DELETE` removes every
matching row reporting a row count, `ILIKE` is pattern matching with the
`%`/`_` wildcards and backslash escapes after case folding, and
`ORDER BY created_at DESC` sorts by the `created_at` column descending.
-/

namespace TinyUrl

/-- One row of the `links` table (server.js:36-45). -/
structure Link where
  id : Nat
  code : String
  url : String
  clicks : Nat
  last_clicked : Option Nat
  created_at : Nat
deriving DecidableEq, Repr

/-- The database state: the rows of `links` in insertion order, plus the
next value of the `id` serial column. -/
structure ServerState where
  links : List Link
  nextId : Nat
deriving DecidableEq, Repr

/-- The codes currently stored. -/
def ServerState.codes (st : ServerState) : List String :=
  st.links.map (·.code)

/-- Empty table; Postgres serials start at 1. -/
def initialState : ServerState := ⟨[], 1⟩

/-! ## Code generator (server.js:56-64) -/

/-- The 62-character alphabet of `generateCode`. -/
def chars62 : List Char :=
  "ABCDEFGHIJKLMNOPQRSTUVWXYZabcdefghijklmnopqrstuvwxyz0123456789".toList

/-- `generateCode(len)` (server.js:56-64): `len` characters, each
`chars[Math.floor(Math.random() * chars.length)]`.  `rand k` is the value
of the `k`-th call to `Math.floor(Math.random() * 62)`; a call starting at
stream position `start` consumes positions `start .. start+len-1`. -/
def generateCode (rand : Nat → Fin 62) (start : Nat) (len : Nat) : String :=
  ⟨(List.range len).map fun i => chars62.getD (rand (start + i)).val 'A'⟩

/-- ASCII alphanumeric test, the character class `[A-Za-z0-9]`. -/
def isAlphaNumChar (c : Char) : Bool :=
  (decide ('A' ≤ c) && decide (c ≤ 'Z')) ||
  (decide ('a' ≤ c) && decide (c ≤ 'z')) ||
  (decide ('0' ≤ c) && decide (c ≤ '9'))

/-- The test `/^[A-Za-z0-9]{6,8}$/.test(code)` (server.js:120). -/
def matchesCodeRegex (s : String) : Bool :=
  decide (6 ≤ s.length) && decide (s.length ≤ 8) && s.toList.all isAlphaNumChar

/-! ## Create (server.js:106-170) -/

inductive CreateResult where
  /-- 201 with body `code, fullUrl, url, clicks` (server.js:165). -/
  | created (code fullUrl url : String) (clicks : Nat)
  /-- 400 `Invalid or missing URL` (server.js:112). -/
  | invalidUrl
  /-- 400 `Code must be 6-8 chars` (server.js:121-123). -/
  | invalidCode
  /-- 409 `Code already in use` (server.js:131). -/
  | conflict
  /-- 500 `Unable to generate unique code` (server.js:149-151). -/
  | exhausted
deriving DecidableEq, Repr

def CreateResult.status : CreateResult → Nat
  | .created _ _ _ _ => 201
  | .invalidUrl => 400
  | .invalidCode => 400
  | .conflict => 409
  | .exhausted => 500

/-- JavaScript truthiness of the optional `code` body field: `undefined`
and `""` are falsy (`if (customCode)`, server.js:118). -/
def truthy : Option String → Option String
  | none => none
  | some c => if c == "" then none else some c

/-- The for-loop of server.js:136-147: up to 10 candidates, iteration `i`
drawing `generateCode()` from stream positions `6*i .. 6*i+5`, stopping at
the first candidate not already stored (`SELECT 1 FROM links WHERE code =
$1` returning no row). -/
def genLoop (rand : Nat → Fin 62) (codes : List String) : Option String :=
  (List.range 10).findSome? fun i =>
    if codes.contains (generateCode rand (6 * i) 6) then none
    else some (generateCode rand (6 * i) 6)

/-- The `INSERT` and 201 response (server.js:155-165): new row with
`clicks = 0`, `last_clicked = null`, `created_at` defaulted to now, and
`fullUrl = protocol + "://" + host + "/" + code`. -/
def insertLink (u c : String) (now : Nat) (proto host : String)
    (st : ServerState) : CreateResult × ServerState :=
  (.created c (proto ++ "://" ++ host ++ "/" ++ c) u 0,
   ⟨st.links ++ [⟨st.nextId, c, u, 0, none, now⟩], st.nextId + 1⟩)

/-- `POST /api/links` (server.js:106-170).  `urlField`/`codeField` are the
body fields (absent = `none`); `!url || !isUrl(url)` rejects missing,
empty and ill-formed URLs. -/
def createLink (isUrl : String → Bool) (rand : Nat → Fin 62)
    (urlField codeField : Option String) (now : Nat) (proto host : String)
    (st : ServerState) : CreateResult × ServerState :=
  match urlField with
  | none => (.invalidUrl, st)
  | some u =>
    if u == "" || !(isUrl u) then (.invalidUrl, st)
    else
      match truthy codeField with
      | some c =>
        if !(matchesCodeRegex c) then (.invalidCode, st)
        else if st.codes.contains c then (.conflict, st)
        else insertLink u c now proto host st
      | none =>
        match genLoop rand st.codes with
        | some c => insertLink u c now proto host st
        | none => (.exhausted, st)

/-! ## Delete (server.js:173-190) -/

inductive DeleteResult where
  | deleted
  | notFound
deriving DecidableEq, Repr

def DeleteResult.status : DeleteResult → Nat
  | .deleted => 200
  | .notFound => 404

/-- `DELETE /api/links/:code` (server.js:173-190): `DELETE FROM links
WHERE code = $1` removes every matching row; 404 when `rowCount` is 0. -/
def deleteLink (code : String) (st : ServerState) : DeleteResult × ServerState :=
  let matched := st.links.filter (fun l => l.code == code)
  let st' : ServerState := ⟨st.links.filter (fun l => !(l.code == code)), st.nextId⟩
  if matched.length = 0 then (.notFound, st') else (.deleted, st')

/-! ## Stats (server.js:193-213) -/

inductive StatsResult where
  | ok (link : Link) (fullShortUrl : String)
  | notFound
deriving DecidableEq, Repr

def StatsResult.status : StatsResult → Nat
  | .ok _ _ => 200
  | .notFound => 404

/-- `GET /stats/:code` (server.js:193-213): `SELECT ... WHERE code = $1`,
404 when no row, else render with the row and its full short URL. -/
def statsLink (proto host code : String) (st : ServerState) : StatsResult :=
  match st.links.find? (fun l => l.code == code) with
  | none => .notFound
  | some l => .ok l (proto ++ "://" ++ host ++ "/" ++ l.code)

/-! ## Redirect (server.js:232-261) -/

inductive RedirectResult where
  /-- `res.redirect(url)`, a 302. -/
  | redirect (url : String)
  /-- 404, carrying the response text. -/
  | notFound (msg : String)
deriving DecidableEq, Repr

def RedirectResult.status : RedirectResult → Nat
  | .redirect _ => 302
  | .notFound _ => 404

/-- `GET /:code` (server.js:232-261): reserved names short-circuit to 404;
otherwise `SELECT url ... LIMIT 1`, 404 when absent, else `UPDATE links
SET clicks = clicks + 1, last_clicked = NOW() WHERE code = $1` and
redirect to the stored url. -/
def redirectLink (code : String) (now : Nat) (st : ServerState) :
    RedirectResult × ServerState :=
  if code = "api" ∨ code = "stats" ∨ code = "health" then
    (.notFound "Not found", st)
  else
    match st.links.find? (fun l => l.code == code) with
    | none => (.notFound "Short URL not found", st)
    | some l =>
      (.redirect l.url,
       ⟨st.links.map (fun x =>
          if x.code == code then
            { x with clicks := x.clicks + 1, last_clicked := some now }
          else x),
        st.nextId⟩)

/-- A database statement issued by the redirect handler. -/
inductive DbOp where
  | selectUrl (code : String)
  | updateClicks (code : String)
deriving DecidableEq, Repr

/-- The SQL statements `GET /:code` executes, in order: none for reserved
names (the early return at server.js:237-239 precedes both queries), the
`SELECT` alone on a miss, `SELECT` then `UPDATE` on a hit. -/
def redirectTrace (code : String) (st : ServerState) : List DbOp :=
  if code = "api" ∨ code = "stats" ∨ code = "health" then []
  else
    match st.links.find? (fun l => l.code == code) with
    | none => [.selectUrl code]
    | some _ => [.selectUrl code, .updateClicks code]

/-- Repeated redirects to the same code at the given successive times. -/
def redirectSeq (code : String) (times : List Nat) (st : ServerState) :
    ServerState :=
  times.foldl (fun s t => (redirectLink code t s).2) st

/-! ## List/search (server.js:84-103), with Postgres `ILIKE` semantics -/

/-- Postgres `LIKE` pattern matching: `%` matches any sequence, `_` any
single character, backslash escapes the next pattern character; the whole
pattern must cover the whole string.  (A pattern ending in a lone escape
character is an error in Postgres; it cannot arise from `%...%` patterns
and is rendered here as no match.) -/
def likeMatch : List Char → List Char → Bool
  | [], s => s.isEmpty
  | p :: ps, s =>
    if p = '%' then
      (List.range (s.length + 1)).any fun n => likeMatch ps (s.drop n)
    else if p = '_' then
      match s with
      | [] => false
      | _ :: cs => likeMatch ps cs
    else if p = '\\' then
      match ps with
      | [] => false
      | q :: ps' =>
        match s with
        | [] => false
        | c :: cs => (c == q) && likeMatch ps' cs
    else
      match s with
      | [] => false
      | c :: cs => (c == p) && likeMatch ps cs

/-- ASCII case folding of a character list. -/
def lowerL (l : List Char) : List Char := l.map Char.toLower

/-- `ILIKE`: case-insensitive `LIKE`. -/
def ilike (pat s : String) : Bool :=
  likeMatch (lowerL pat.toList) (lowerL s.toList)

/-- Case-insensitive substring containment — the spec's description of the
search filter ("code or url case-insensitively contains the filter
substring"). -/
def containsCI (needle hay : String) : Prop :=
  lowerL needle.toList <:+: lowerL hay.toList

instance (needle hay : String) : Decidable (containsCI needle hay) :=
  List.decidableInfix _ _

/-- The spec's filter predicate on a row: code or url contains the filter
case-insensitively. -/
def specMatch (s : String) (l : Link) : Prop :=
  containsCI s l.code ∨ containsCI s l.url

instance (s : String) (l : Link) : Decidable (specMatch s l) := by
  unfold specMatch; infer_instance

/-- Insert a row into a list kept sorted by `created_at` descending. -/
def insLink (a : Link) : List Link → List Link
  | [] => [a]
  | b :: bs =>
    if a.created_at ≤ b.created_at then b :: insLink a bs else a :: b :: bs

/-- `ORDER BY created_at DESC`: sort by `created_at` descending. -/
def sortDesc (l : List Link) : List Link := l.foldr insLink []

/-- Sortedness by `created_at` descending. -/
def sortedDesc (l : List Link) : Prop :=
  l.Pairwise (fun x y => y.created_at ≤ x.created_at)

/-- `GET /api/links` (server.js:84-103): an absent or empty `search` query
(falsy, server.js:90) lists everything; otherwise rows are filtered by
`code ILIKE '%search%' OR url ILIKE '%search%'`; rows come back ordered by
`created_at` descending. -/
def getLinks (search : Option String) (st : ServerState) : List Link :=
  let rows :=
    match truthy search with
    | none => st.links
    | some s =>
      st.links.filter fun l =>
        ilike ("%" ++ s ++ "%") l.code || ilike ("%" ++ s ++ "%") l.url
  sortDesc rows

/-- A filter string free of the `LIKE` metacharacters `%`, `_` and the
escape character backslash. -/
def noMeta (p : List Char) : Prop :=
  ∀ c ∈ p, c ≠ '%' ∧ c ≠ '_' ∧ c ≠ '\\'

instance (p : List Char) : Decidable (noMeta p) := by
  unfold noMeta
  infer_instance

/-! ## Operation sequences, for the store invariants -/

/-- One client operation against the service. -/
inductive Op where
  | createOp (urlField codeField : Option String) (rand : Nat → Fin 62)
      (now : Nat) (proto host : String)
  | listOp (search : Option String)
  | deleteOp (code : String)
  | redirectOp (code : String) (now : Nat)
  | statsOp (proto host code : String)

/-- State transition of one operation (list and stats only read). -/
def step (isUrl : String → Bool) (st : ServerState) : Op → ServerState
  | .createOp u c r now p h => (createLink isUrl r u c now p h st).2
  | .listOp _ => st
  | .deleteOp c => (deleteLink c st).2
  | .redirectOp c now => (redirectLink c now st).2
  | .statsOp _ _ _ => st

/-- Run a sequence of operations from the empty store. -/
def run (isUrl : String → Bool) (ops : List Op) : ServerState :=
  ops.foldl (step isUrl) initialState

/-- Well-formedness of a store: the spec's data-model invariant
(`last_clicked` is null iff `clicks` is 0) together with the bookkeeping
facts that make it inductive: every stored id is below the serial counter
and ids are pairwise distinct. -/
def WF (st : ServerState) : Prop :=
  (∀ l ∈ st.links, (l.last_clicked = none ↔ l.clicks = 0)) ∧
  (∀ l ∈ st.links, l.id < st.nextId) ∧
  (st.links.map (·.id)).Nodup

/-! ## Helper lemmas: the create handler's control flow -/

theorem createLink_of_valid {isUrl : String → Bool} {u : String} (hu : u ≠ "")
    (hurl : isUrl u = true) (rand : Nat → Fin 62) (codeField : Option String)
    (now : Nat) (proto host : String) (st : ServerState) :
    createLink isUrl rand (some u) codeField now proto host st =
      match truthy codeField with
      | some c =>
        if !(matchesCodeRegex c) then (.invalidCode, st)
        else if st.codes.contains c then (.conflict, st)
        else insertLink u c now proto host st
      | none =>
        match genLoop rand st.codes with
        | some c => insertLink u c now proto host st
        | none => (.exhausted, st) := by
  have h1 : (u == "") = false := by simp [hu]
  simp only [createLink, h1, hurl, Bool.not_true, Bool.or_self, Bool.false_or,
    if_false, Bool.false_eq_true]

theorem truthy_some {c : String} (hc : c ≠ "") : truthy (some c) = some c := by
  simp [truthy, hc]

/-! ## Claim theorems: create validation and custom codes -/

/-- C3: Create fails with ValidationError (HTTP 400) whenever the url field
is missing, empty or not well-formed, regardless of any code supplied, and
also whenever a (truthy, i.e. non-empty) custom code is supplied that does
not match `[A-Za-z0-9]{6,8}`; in both cases the store is unchanged. -/
theorem create_validation_spec :
    ∀ (isUrl : String → Bool) (rand : Nat → Fin 62)
      (urlField codeField : Option String) (now : Nat) (proto host : String)
      (st : ServerState),
      ((urlField = none ∨ urlField = some "" ∨
          (∃ u, urlField = some u ∧ isUrl u = false)) →
        createLink isUrl rand urlField codeField now proto host st =
          (.invalidUrl, st) ∧ CreateResult.status .invalidUrl = 400) ∧
      (∀ u c, urlField = some u → u ≠ "" → isUrl u = true →
        codeField = some c → c ≠ "" → matchesCodeRegex c = false →
        createLink isUrl rand urlField codeField now proto host st =
          (.invalidCode, st) ∧ CreateResult.status .invalidCode = 400) := by
  intro isUrl rand urlField codeField now proto host st
  constructor
  · rintro (rfl | rfl | ⟨u, rfl, hbad⟩)
    · exact ⟨rfl, rfl⟩
    · refine ⟨?_, rfl⟩
      simp [createLink]
    · refine ⟨?_, rfl⟩
      simp [createLink, hbad]
  · rintro u c rfl hu hurl rfl hc hregex
    refine ⟨?_, rfl⟩
    rw [createLink_of_valid hu hurl, truthy_some hc]
    simp [hregex]

theorem create_validation_spec_witness :
    (createLink (fun _ => false) (fun _ => ⟨0, by decide⟩) (some "not a url")
        (some "abc123") 0 "http" "h" initialState =
      (.invalidUrl, initialState) ∧ CreateResult.status .invalidUrl = 400) ∧
    (createLink (fun u => u == "https://x.com") (fun _ => ⟨0, by decide⟩)
        (some "https://x.com") (some "ab!") 0 "http" "h" initialState =
      (.invalidCode, initialState) ∧ CreateResult.status .invalidCode = 400) :=
  ⟨(create_validation_spec (fun _ => false) (fun _ => ⟨0, by decide⟩)
      (some "not a url") (some "abc123") 0 "http" "h" initialState).1
      (Or.inr (Or.inr ⟨"not a url", rfl, rfl⟩)),
   (create_validation_spec (fun u => u == "https://x.com")
      (fun _ => ⟨0, by decide⟩) (some "https://x.com") (some "ab!") 0 "http"
      "h" initialState).2 "https://x.com" "ab!" rfl (by decide) (by decide)
      rfl (by decide) (by decide)⟩

/-- C4: With a well-formed url and a custom code matching the regex: if the
code is already stored, create fails with ConflictError (409) and the store
is unchanged; if it is not taken, create succeeds (inserting the row), and
any subsequent create with the same code and a well-formed url fails with
409 leaving that store unchanged. -/
theorem create_custom_conflict_spec :
    ∀ (isUrl : String → Bool) (rand : Nat → Fin 62) (u c : String)
      (now : Nat) (proto host : String) (st : ServerState),
      u ≠ "" → isUrl u = true → c ≠ "" → matchesCodeRegex c = true →
      (st.codes.contains c = true →
        createLink isUrl rand (some u) (some c) now proto host st =
          (.conflict, st) ∧ CreateResult.status .conflict = 409) ∧
      (st.codes.contains c = false →
        createLink isUrl rand (some u) (some c) now proto host st =
          (.created c (proto ++ "://" ++ host ++ "/" ++ c) u 0,
           ⟨st.links ++ [⟨st.nextId, c, u, 0, none, now⟩], st.nextId + 1⟩) ∧
        ∀ (isUrl₂ : String → Bool) (rand₂ : Nat → Fin 62) (u₂ : String)
          (now₂ : Nat) (proto₂ host₂ : String), u₂ ≠ "" → isUrl₂ u₂ = true →
          (createLink isUrl₂ rand₂ (some u₂) (some c) now₂ proto₂ host₂
            ⟨st.links ++ [⟨st.nextId, c, u, 0, none, now⟩], st.nextId + 1⟩).1 =
            .conflict) := by
  intro isUrl rand u c now proto host st hu hurl hc hregex
  constructor
  · intro htaken
    refine ⟨?_, rfl⟩
    rw [createLink_of_valid hu hurl, truthy_some hc]
    have htaken' : c ∈ st.codes := by simpa using htaken
    simp [hregex, htaken']
  · intro hfree
    have hfree' : c ∉ st.codes := by simpa using hfree
    constructor
    · rw [createLink_of_valid hu hurl, truthy_some hc]
      simp [hregex, hfree', insertLink]
    · intro isUrl₂ rand₂ u₂ now₂ proto₂ host₂ hu₂ hurl₂
      rw [createLink_of_valid hu₂ hurl₂, truthy_some hc]
      have htaken :
          c ∈ (ServerState.codes
            ⟨st.links ++ [⟨st.nextId, c, u, 0, none, now⟩],
             st.nextId + 1⟩) := by
        simp [ServerState.codes]
      simp [hregex, htaken]

theorem create_custom_conflict_spec_witness :
    (createLink (fun _ => true) (fun _ => ⟨0, by decide⟩)
        (some "https://x.com") (some "abc123") 0 "http" "h" initialState =
      (.created "abc123" "http://h/abc123" "https://x.com" 0,
       ⟨[⟨1, "abc123", "https://x.com", 0, none, 0⟩], 2⟩) ∧
      ∀ (isUrl₂ : String → Bool) (rand₂ : Nat → Fin 62) (u₂ : String)
        (now₂ : Nat) (proto₂ host₂ : String), u₂ ≠ "" → isUrl₂ u₂ = true →
        (createLink isUrl₂ rand₂ (some u₂) (some "abc123") now₂ proto₂ host₂
          ⟨[⟨1, "abc123", "https://x.com", 0, none, 0⟩], 2⟩).1 =
          .conflict) := by
  have h := (create_custom_conflict_spec (fun _ => true)
    (fun _ => ⟨0, by decide⟩) "https://x.com" "abc123" 0 "http" "h"
    initialState (by decide) rfl (by decide) (by decide)).2 (by decide)
  exact h

/-- C5: Every successful create inserts exactly one new Link with clicks 0
and last_clicked null, and responds 201 with body `code, fullUrl, url,
clicks` where `fullUrl = scheme ++ "://" ++ host ++ "/" ++ code` and
`clicks = 0`. -/
theorem create_success_spec :
    ∀ (isUrl : String → Bool) (rand : Nat → Fin 62)
      (urlField codeField : Option String) (now : Nat) (proto host : String)
      (st st' : ServerState) (c f u₀ : String) (k : Nat),
      createLink isUrl rand urlField codeField now proto host st =
        (.created c f u₀ k, st') →
      st'.links = st.links ++ [⟨st.nextId, c, u₀, 0, none, now⟩] ∧
      st'.nextId = st.nextId + 1 ∧
      f = proto ++ "://" ++ host ++ "/" ++ c ∧ k = 0 ∧
      CreateResult.status (.created c f u₀ k) = 201 := by
  intro isUrl rand urlField codeField now proto host st st' c f u₀ k h
  have hins : ∃ u c₀, insertLink u c₀ now proto host st = (.created c f u₀ k, st') := by
    unfold createLink at h
    split at h
    · exact absurd h (by simp)
    · split at h
      · exact absurd h (by simp)
      · split at h
        · split at h
          · exact absurd h (by simp)
          · split at h
            · exact absurd h (by simp)
            · exact ⟨_, _, h⟩
        · split at h
          · exact ⟨_, _, h⟩
          · exact absurd h (by simp)
  obtain ⟨u, c₀, hins⟩ := hins
  unfold insertLink at hins
  rw [Prod.mk.injEq, CreateResult.created.injEq] at hins
  obtain ⟨⟨hc, hf, hu, hk⟩, hst⟩ := hins
  subst hc hf hu hk
  subst hst
  exact ⟨rfl, rfl, rfl, rfl, rfl⟩

theorem create_success_spec_witness :
    ServerState.links ⟨[⟨1, "abc123", "https://x.com", 0, none, 7⟩], 2⟩ =
      ServerState.links initialState ++
        [⟨ServerState.nextId initialState, "abc123", "https://x.com", 0, none, 7⟩] ∧
    ServerState.nextId ⟨[⟨1, "abc123", "https://x.com", 0, none, 7⟩], 2⟩ =
      ServerState.nextId initialState + 1 ∧
    "http://h/abc123" = "http" ++ "://" ++ "h" ++ "/" ++ "abc123" ∧
    (0 : Nat) = 0 ∧
    CreateResult.status
      (.created "abc123" "http://h/abc123" "https://x.com" 0) = 201 :=
  create_success_spec (fun _ => true) (fun _ => ⟨0, by decide⟩)
    (some "https://x.com") (some "abc123") 7 "http" "h" initialState
    ⟨[⟨1, "abc123", "https://x.com", 0, none, 7⟩], 2⟩
    "abc123" "http://h/abc123" "https://x.com" 0 (by decide)

/-- C10: A create request whose `code` body field is present but equal to
the empty string is treated exactly as if no custom code were supplied
(JavaScript truthiness of `if (customCode)`): the random-generation path is
taken, and with a well-formed url the result is never a 400
ValidationError. -/
theorem empty_code_spec :
    ∀ (isUrl : String → Bool) (rand : Nat → Fin 62) (u : String) (now : Nat)
      (proto host : String) (st : ServerState),
      createLink isUrl rand (some u) (some "") now proto host st =
        createLink isUrl rand (some u) none now proto host st ∧
      (u ≠ "" → isUrl u = true →
        CreateResult.status
          (createLink isUrl rand (some u) (some "") now proto host st).1 ≠
          400) := by
  intro isUrl rand u now proto host st
  constructor
  · rfl
  · intro hu hurl
    rw [createLink_of_valid hu hurl]
    show CreateResult.status (match genLoop rand st.codes with
      | some c => insertLink u c now proto host st
      | none => (.exhausted, st)).1 ≠ 400
    cases genLoop rand st.codes <;> simp [insertLink, CreateResult.status]

theorem empty_code_spec_witness :
    createLink (fun _ => true) (fun _ => ⟨0, by decide⟩)
        (some "https://x.com") (some "") 0 "http" "h" initialState =
      createLink (fun _ => true) (fun _ => ⟨0, by decide⟩)
        (some "https://x.com") none 0 "http" "h" initialState ∧
    CreateResult.status
      (createLink (fun _ => true) (fun _ => ⟨0, by decide⟩)
        (some "https://x.com") (some "") 0 "http" "h" initialState).1 ≠ 400 :=
  ⟨(empty_code_spec (fun _ => true) (fun _ => ⟨0, by decide⟩) "https://x.com"
      0 "http" "h" initialState).1,
   (empty_code_spec (fun _ => true) (fun _ => ⟨0, by decide⟩) "https://x.com"
      0 "http" "h" initialState).2 (by decide) rfl⟩

/-- C6: For every storage state — including states where a link with that
code exists — a redirect request for a reserved code (`api`, `stats`,
`health`) fails with a 404 NotFoundError, leaves the store unchanged, and
issues no database statement for that code. -/
theorem reserved_codes_spec :
    ∀ (code : String) (now : Nat) (st : ServerState),
      (code = "api" ∨ code = "stats" ∨ code = "health") →
      redirectLink code now st = (.notFound "Not found", st) ∧
      RedirectResult.status (.notFound "Not found") = 404 ∧
      redirectTrace code st = [] := by
  intro code now st h
  refine ⟨?_, rfl, ?_⟩
  · simp [redirectLink, h]
  · simp [redirectTrace, h]

theorem reserved_codes_spec_witness :
    redirectLink "api" 3 ⟨[⟨1, "api", "https://x.com", 0, none, 0⟩], 2⟩ =
      (.notFound "Not found", ⟨[⟨1, "api", "https://x.com", 0, none, 0⟩], 2⟩) ∧
    RedirectResult.status (.notFound "Not found") = 404 ∧
    redirectTrace "api" ⟨[⟨1, "api", "https://x.com", 0, none, 0⟩], 2⟩ = [] :=
  reserved_codes_spec "api" 3 ⟨[⟨1, "api", "https://x.com", 0, none, 0⟩], 2⟩
    (Or.inl rfl)

/-! ## Claim theorem: delete -/

/-- C9: Deleting an existing code removes exactly the matching row (every
other row is kept), after which a stats lookup for that code fails with a
404 NotFoundError; deleting a code matching no stored row fails with 404
and leaves the store unchanged. -/
theorem delete_spec :
    ∀ (code proto host : String) (st : ServerState),
      ((∃ l ∈ st.links, l.code = code) →
        deleteLink code st =
          (.deleted,
           ⟨st.links.filter (fun l => !(l.code == code)), st.nextId⟩) ∧
        DeleteResult.status .deleted = 200 ∧
        statsLink proto host code (deleteLink code st).2 = .notFound ∧
        StatsResult.status .notFound = 404) ∧
      ((∀ l ∈ st.links, l.code ≠ code) →
        deleteLink code st = (.notFound, st) ∧
        DeleteResult.status .notFound = 404) := by
  intro code proto host st
  constructor
  · rintro ⟨l, hl, hcode⟩
    have hmem : l ∈ st.links.filter (fun x => x.code == code) :=
      List.mem_filter.mpr ⟨hl, by simp [hcode]⟩
    have hne : (st.links.filter (fun x => x.code == code)).length ≠ 0 := by
      intro h0
      rw [List.length_eq_zero] at h0
      simp [h0] at hmem
    have hdel : deleteLink code st =
        (.deleted, ⟨st.links.filter (fun l => !(l.code == code)), st.nextId⟩) := by
      unfold deleteLink
      rw [if_neg hne]
    refine ⟨hdel, rfl, ?_, rfl⟩
    rw [hdel]
    show statsLink proto host code
      ⟨st.links.filter (fun l => !(l.code == code)), st.nextId⟩ = .notFound
    unfold statsLink
    have hfind : (st.links.filter (fun l => !(l.code == code))).find?
        (fun l => l.code == code) = none := by
      rw [List.find?_eq_none]
      intro x hx
      have := (List.mem_filter.mp hx).2
      simp at this
      simp [this]
    rw [hfind]
  · intro h
    have hnil : st.links.filter (fun x => x.code == code) = [] := by
      rw [List.filter_eq_nil_iff]
      intro x hx
      simp [h x hx]
    have hself : st.links.filter (fun l => !(l.code == code)) = st.links := by
      rw [List.filter_eq_self]
      intro x hx
      simp [h x hx]
    refine ⟨?_, rfl⟩
    unfold deleteLink
    rw [hnil, hself]
    rfl

theorem delete_spec_witness :
    (deleteLink "abc123" ⟨[⟨1, "abc123", "https://x.com", 2, some 9, 0⟩], 2⟩ =
      (.deleted, ⟨[], 2⟩) ∧
     DeleteResult.status .deleted = 200 ∧
     statsLink "http" "h" "abc123"
       (deleteLink "abc123"
         ⟨[⟨1, "abc123", "https://x.com", 2, some 9, 0⟩], 2⟩).2 = .notFound ∧
     StatsResult.status .notFound = 404) ∧
    (deleteLink "zzzzzz" ⟨[⟨1, "abc123", "https://x.com", 2, some 9, 0⟩], 2⟩ =
      (.notFound, ⟨[⟨1, "abc123", "https://x.com", 2, some 9, 0⟩], 2⟩) ∧
     DeleteResult.status .notFound = 404) :=
  ⟨(delete_spec "abc123" "http" "h"
      ⟨[⟨1, "abc123", "https://x.com", 2, some 9, 0⟩], 2⟩).1
      ⟨⟨1, "abc123", "https://x.com", 2, some 9, 0⟩, by decide, rfl⟩,
   (delete_spec "zzzzzz" "http" "h"
      ⟨[⟨1, "abc123", "https://x.com", 2, some 9, 0⟩], 2⟩).2
      (by decide)⟩

/-! ## Helper lemmas: the random-code loop -/

theorem findSome?_eq_some_of_first {α : Type} (f : Nat → Option α) :
    ∀ (n j : Nat) (a : α), j < n → (∀ i, i < j → f i = none) →
      f j = some a → (List.range n).findSome? f = some a := by
  intro n
  induction n with
  | zero => intro j a hj; omega
  | succ n ih =>
    intro j a hj hnone ha
    rw [List.range_succ, List.findSome?_append]
    rcases Nat.lt_or_ge j n with hjn | hjn
    · rw [ih j a hjn hnone ha]
      rfl
    · have hjeq : j = n := by omega
      subst hjeq
      have hfirst : (List.range j).findSome? f = none :=
        List.findSome?_eq_none_iff.mpr
          (fun x hx => hnone x (List.mem_range.mp hx))
      rw [hfirst]
      simp [ha]

theorem genLoop_eq_some (rand : Nat → Fin 62) (codes : List String) (j : Nat)
    (hj : j < 10)
    (hprev : ∀ i, i < j → codes.contains (generateCode rand (6 * i) 6) = true)
    (hfresh : codes.contains (generateCode rand (6 * j) 6) = false) :
    genLoop rand codes = some (generateCode rand (6 * j) 6) := by
  unfold genLoop
  apply findSome?_eq_some_of_first _ 10 j _ hj
  · intro i hi
    have hmem : generateCode rand (6 * i) 6 ∈ codes := by
      simpa using hprev i hi
    simp [hmem]
  · have hmem : generateCode rand (6 * j) 6 ∉ codes := by
      simpa using hfresh
    simp [hmem]

theorem genLoop_eq_none (rand : Nat → Fin 62) (codes : List String)
    (hall : ∀ i, i < 10 → codes.contains (generateCode rand (6 * i) 6) = true) :
    genLoop rand codes = none := by
  unfold genLoop
  apply List.findSome?_eq_none_iff.mpr
  intro i hi
  have hmem : generateCode rand (6 * i) 6 ∈ codes := by
    simpa using hall i (List.mem_range.mp hi)
  simp [hmem]

theorem chars62_alphanum : ∀ k, k < 62 → isAlphaNumChar (chars62.getD k 'A') = true := by
  decide

theorem generateCode_length (rand : Nat → Fin 62) (start len : Nat) :
    (generateCode rand start len).length = len := by
  simp [generateCode]

theorem generateCode_regex (rand : Nat → Fin 62) (start : Nat) :
    matchesCodeRegex (generateCode rand start 6) = true := by
  have hall : ∀ x ∈ (generateCode rand start 6).data, isAlphaNumChar x = true := by
    intro x hx
    have hx' : x ∈ (List.range 6).map
        (fun i => chars62.getD (rand (start + i)).val 'A') := hx
    obtain ⟨i, _, rfl⟩ := List.mem_map.mp hx'
    exact chars62_alphanum _ (rand (start + i)).isLt
  have h1 : (generateCode rand start 6).toList.all isAlphaNumChar = true := by
    rw [List.all_eq_true]
    exact hall
  simp [matchesCodeRegex, generateCode_length, h1]
  exact hall

/-! ## Claim theorem: random-code create -/

/-- C2: With a well-formed url and no custom code, create draws up to 10
candidates (candidate `i` from generator stream positions `6*i ..`),
checking each against storage, and inserts the first fresh one; every
candidate matches `[A-Za-z0-9]{6,8}` at length 6, and the inserted code is
unique among stored links (codes stay Nodup).  If all 10 candidates
collide, create fails with ExhaustedError (500) and no row is inserted. -/
theorem create_random_code_spec :
    ∀ (isUrl : String → Bool) (rand : Nat → Fin 62) (u : String) (now : Nat)
      (proto host : String) (st : ServerState),
      u ≠ "" → isUrl u = true →
      (∀ i : Nat, (generateCode rand (6 * i) 6).length = 6 ∧
        matchesCodeRegex (generateCode rand (6 * i) 6) = true) ∧
      (∀ j, j < 10 →
        (∀ i, i < j →
          st.codes.contains (generateCode rand (6 * i) 6) = true) →
        st.codes.contains (generateCode rand (6 * j) 6) = false →
        createLink isUrl rand (some u) none now proto host st =
          (.created (generateCode rand (6 * j) 6)
             (proto ++ "://" ++ host ++ "/" ++ generateCode rand (6 * j) 6)
             u 0,
           ⟨st.links ++
              [⟨st.nextId, generateCode rand (6 * j) 6, u, 0, none, now⟩],
            st.nextId + 1⟩) ∧
        (st.codes.Nodup →
          (ServerState.codes
            ⟨st.links ++
               [⟨st.nextId, generateCode rand (6 * j) 6, u, 0, none, now⟩],
             st.nextId + 1⟩).Nodup)) ∧
      ((∀ i, i < 10 →
          st.codes.contains (generateCode rand (6 * i) 6) = true) →
        createLink isUrl rand (some u) none now proto host st =
          (.exhausted, st) ∧
        CreateResult.status .exhausted = 500) := by
  intro isUrl rand u now proto host st hu hurl
  refine ⟨?_, ?_, ?_⟩
  · intro i
    exact ⟨generateCode_length .., generateCode_regex ..⟩
  · intro j hj hprev hfresh
    constructor
    · rw [createLink_of_valid hu hurl]
      show (match genLoop rand st.codes with
        | some c => insertLink u c now proto host st
        | none => (.exhausted, st)) = _
      rw [genLoop_eq_some rand st.codes j hj hprev hfresh]
      rfl
    · intro hnodup
      have hfresh' : generateCode rand (6 * j) 6 ∉ st.codes := by
        simpa using hfresh
      have hcodes : ServerState.codes
          ⟨st.links ++
             [⟨st.nextId, generateCode rand (6 * j) 6, u, 0, none, now⟩],
           st.nextId + 1⟩ = st.codes ++ [generateCode rand (6 * j) 6] := by
        simp [ServerState.codes]
      rw [hcodes, List.nodup_append]
      exact ⟨hnodup, List.nodup_singleton _, by simpa using hfresh'⟩
  · intro hall
    refine ⟨?_, rfl⟩
    rw [createLink_of_valid hu hurl]
    show (match genLoop rand st.codes with
      | some c => insertLink u c now proto host st
      | none => (.exhausted, st)) = _
    rw [genLoop_eq_none rand st.codes hall]

theorem create_random_code_spec_witness :
    ((generateCode (fun _ => ⟨0, by decide⟩) (6 * 0) 6).length = 6 ∧
      matchesCodeRegex (generateCode (fun _ => ⟨0, by decide⟩) (6 * 0) 6) = true) ∧
    (createLink (fun _ => true) (fun _ => ⟨0, by decide⟩)
        (some "https://x.com") none 7 "http" "h" initialState =
      (.created (generateCode (fun _ => ⟨0, by decide⟩) (6 * 0) 6)
         ("http" ++ "://" ++ "h" ++ "/" ++
           generateCode (fun _ => ⟨0, by decide⟩) (6 * 0) 6) "https://x.com" 0,
       ⟨ServerState.links initialState ++
          [⟨ServerState.nextId initialState,
            generateCode (fun _ => ⟨0, by decide⟩) (6 * 0) 6,
            "https://x.com", 0, none, 7⟩],
        ServerState.nextId initialState + 1⟩)) ∧
    (createLink (fun _ => true) (fun _ => ⟨0, by decide⟩)
        (some "https://x.com") none 7 "http" "h"
        ⟨[⟨1, "AAAAAA", "https://y.com", 0, none, 0⟩], 2⟩ =
      (.exhausted, ⟨[⟨1, "AAAAAA", "https://y.com", 0, none, 0⟩], 2⟩)) :=
  ⟨(create_random_code_spec (fun _ => true) (fun _ => ⟨0, by decide⟩)
      "https://x.com" 7 "http" "h" initialState (by decide) rfl).1 0,
   ((create_random_code_spec (fun _ => true) (fun _ => ⟨0, by decide⟩)
      "https://x.com" 7 "http" "h" initialState (by decide) rfl).2.1 0
      (by decide) (by intro i hi; omega) (by decide)).1,
   ((create_random_code_spec (fun _ => true) (fun _ => ⟨0, by decide⟩)
      "https://x.com" 7 "http" "h"
      ⟨[⟨1, "AAAAAA", "https://y.com", 0, none, 0⟩], 2⟩ (by decide) rfl).2.2
      (by decide)).1⟩

/-! ## Helper lemmas: redirect -/

theorem find?_code_eq {st : ServerState} {l : Link} {c : String}
    (hl : l ∈ st.links) (hcode : l.code = c) (hnodup : st.codes.Nodup) :
    st.links.find? (fun x => x.code == c) = some l := by
  cases hfind : st.links.find? (fun x => x.code == c) with
  | none =>
    exact absurd (List.find?_eq_none.mp hfind l hl) (by simp [hcode])
  | some l₀ =>
    have h₀ : l₀.code = c := by simpa using List.find?_some hfind
    have hmem : l₀ ∈ st.links := List.mem_of_find?_eq_some hfind
    have heq : l₀ = l :=
      List.inj_on_of_nodup_map hnodup hmem hl (by rw [h₀, hcode])
    rw [heq]

theorem redirectLink_hit {st : ServerState} {l : Link} {c : String}
    (hres : ¬(c = "api" ∨ c = "stats" ∨ c = "health")) (hl : l ∈ st.links)
    (hcode : l.code = c) (hnodup : st.codes.Nodup) (now : Nat) :
    redirectLink c now st =
      (.redirect l.url,
       ⟨st.links.map (fun x =>
          if x.code == c then
            { x with clicks := x.clicks + 1, last_clicked := some now }
          else x),
        st.nextId⟩) := by
  unfold redirectLink
  rw [if_neg hres, find?_code_eq hl hcode hnodup]

theorem codes_map_update (st : ServerState) (c : String) (now : Nat) :
    ServerState.codes
      ⟨st.links.map (fun x =>
         if x.code == c then
           { x with clicks := x.clicks + 1, last_clicked := some now }
         else x),
       st.nextId⟩ = st.codes := by
  show List.map _ (List.map _ st.links) = List.map _ st.links
  rw [List.map_map]
  apply List.map_congr_left
  intro x _
  by_cases h : x.code = c <;> simp [h]

theorem redirectSeq_clicks {c : String}
    (hres : ¬(c = "api" ∨ c = "stats" ∨ c = "health")) :
    ∀ (times : List Nat) (st : ServerState) (l : Link),
      l ∈ st.links → l.code = c → st.codes.Nodup →
      ∃ l' ∈ (redirectSeq c times st).links,
        l'.code = c ∧ l'.url = l.url ∧
        l'.clicks = l.clicks + times.length ∧
        l'.last_clicked = times.foldl (fun _ t => some t) l.last_clicked := by
  intro times
  induction times with
  | nil =>
    intro st l hl hcode _
    exact ⟨l, hl, hcode, rfl, rfl, rfl⟩
  | cons t ts ih =>
    intro st l hl hcode hnodup
    have hstep := redirectLink_hit hres hl hcode hnodup t
    have hseq : redirectSeq c (t :: ts) st =
        redirectSeq c ts (redirectLink c t st).2 := rfl
    have hst₁ : (redirectLink c t st).2 =
        ⟨st.links.map (fun x =>
           if x.code == c then
             { x with clicks := x.clicks + 1, last_clicked := some t }
           else x),
         st.nextId⟩ := by rw [hstep]
    have hl₁ : ({ l with clicks := l.clicks + 1, last_clicked := some t } : Link) ∈
        (redirectLink c t st).2.links := by
      rw [hst₁]
      have := List.mem_map_of_mem (fun x =>
        if x.code == c then
          ({ x with clicks := x.clicks + 1, last_clicked := some t } : Link)
        else x) hl
      simpa [hcode] using this
    have hnodup₁ : (redirectLink c t st).2.codes.Nodup := by
      rw [hst₁, codes_map_update]
      exact hnodup
    obtain ⟨l', hl', h1, h2, h3, h4⟩ :=
      ih (redirectLink c t st).2
        { l with clicks := l.clicks + 1, last_clicked := some t } hl₁ hcode
        hnodup₁
    refine ⟨l', ?_, h1, ?_, ?_, ?_⟩
    · rw [hseq]
      exact hl'
    · exact h2
    · rw [h3]
      show l.clicks + 1 + ts.length = l.clicks + (ts.length + 1)
      omega
    · rw [h4]
      rfl

theorem foldl_some_eq_getLast? :
    ∀ (ts : List Nat) (acc : Option Nat), ts ≠ [] →
      ts.foldl (fun _ t => some t) acc = ts.getLast? := by
  intro ts
  induction ts with
  | nil => simp
  | cons t ts ih =>
    intro acc _
    cases ts with
    | nil => rfl
    | cons t' ts' =>
      show (t' :: ts').foldl (fun _ x => some x) (some t) =
        (t :: t' :: ts').getLast?
      rw [ih (some t) (by simp), List.getLast?_cons_cons]

/-! ## Claim theorem: redirect -/

/-- C1: For a non-reserved code: a redirect to a stored link increments
exactly that link's clicks by 1, sets its last_clicked to the current
time, keeps all other links unchanged, and answers with a 302 to the
stored url; after N (≥ 1) redirects at given times, clicks equals N (from
a fresh link) and last_clicked is the time of the last redirect; a
redirect to a code with no stored link answers 404 and leaves the store
unchanged. -/
theorem redirect_spec :
    ∀ (c : String) (st : ServerState),
      ¬(c = "api" ∨ c = "stats" ∨ c = "health") →
      (∀ (l : Link) (now : Nat), l ∈ st.links → l.code = c →
        st.codes.Nodup →
        redirectLink c now st =
          (.redirect l.url,
           ⟨st.links.map (fun x =>
              if x.code == c then
                { x with clicks := x.clicks + 1, last_clicked := some now }
              else x),
            st.nextId⟩) ∧
        RedirectResult.status (.redirect l.url) = 302 ∧
        ({ l with clicks := l.clicks + 1, last_clicked := some now } : Link) ∈
          (redirectLink c now st).2.links ∧
        (∀ x ∈ st.links, x.code ≠ c → x ∈ (redirectLink c now st).2.links)) ∧
      (∀ (l : Link) (times : List Nat), l ∈ st.links → l.code = c →
        l.clicks = 0 → st.codes.Nodup → times ≠ [] →
        ∃ l' ∈ (redirectSeq c times st).links,
          l'.code = c ∧ l'.url = l.url ∧ l'.clicks = times.length ∧
          l'.last_clicked = times.getLast?) ∧
      ((∀ l ∈ st.links, l.code ≠ c) → ∀ now,
        redirectLink c now st = (.notFound "Short URL not found", st) ∧
        RedirectResult.status (.notFound "Short URL not found") = 404) := by
  intro c st hres
  refine ⟨?_, ?_, ?_⟩
  · intro l now hl hcode hnodup
    have hstep := redirectLink_hit hres hl hcode hnodup now
    refine ⟨hstep, rfl, ?_, ?_⟩
    · rw [hstep]
      have := List.mem_map_of_mem (fun x =>
        if x.code == c then
          ({ x with clicks := x.clicks + 1, last_clicked := some now } : Link)
        else x) hl
      simpa [hcode] using this
    · intro x hx hxc
      rw [hstep]
      have := List.mem_map_of_mem (fun y =>
        if y.code == c then
          ({ y with clicks := y.clicks + 1, last_clicked := some now } : Link)
        else y) hx
      simpa [hxc] using this
  · intro l times hl hcode hclicks hnodup hne
    obtain ⟨l', hl', h1, h2, h3, h4⟩ :=
      redirectSeq_clicks hres times st l hl hcode hnodup
    refine ⟨l', hl', h1, h2, ?_, ?_⟩
    · rw [h3, hclicks, Nat.zero_add]
    · rw [h4, foldl_some_eq_getLast? times _ hne]
  · intro hmiss now
    refine ⟨?_, rfl⟩
    unfold redirectLink
    rw [if_neg hres]
    have hfind : st.links.find? (fun x => x.code == c) = none := by
      rw [List.find?_eq_none]
      intro x hx
      simp [hmiss x hx]
    rw [hfind]

theorem redirect_spec_witness :
    (redirectLink "abc123" 9 ⟨[⟨1, "abc123", "https://x.com", 0, none, 0⟩], 2⟩ =
      (.redirect "https://x.com",
       ⟨[⟨1, "abc123", "https://x.com", 1, some 9, 0⟩], 2⟩) ∧
     RedirectResult.status (.redirect "https://x.com") = 302) ∧
    (∃ l' ∈ (redirectSeq "abc123" [4, 9]
        ⟨[⟨1, "abc123", "https://x.com", 0, none, 0⟩], 2⟩).links,
      l'.code = "abc123" ∧ l'.url = "https://x.com" ∧
      l'.clicks = [4, 9].length ∧ l'.last_clicked = [4, 9].getLast?) ∧
    (redirectLink "zzzzzz" 9 ⟨[⟨1, "abc123", "https://x.com", 0, none, 0⟩], 2⟩ =
      (.notFound "Short URL not found",
       ⟨[⟨1, "abc123", "https://x.com", 0, none, 0⟩], 2⟩) ∧
     RedirectResult.status (.notFound "Short URL not found") = 404) := by
  refine ⟨⟨?_, ?_⟩, ?_, ?_⟩
  · have h := ((redirect_spec "abc123"
      ⟨[⟨1, "abc123", "https://x.com", 0, none, 0⟩], 2⟩ (by decide)).1
      ⟨1, "abc123", "https://x.com", 0, none, 0⟩ 9 (by decide) rfl
      (by decide)).1
    rw [h]
    rfl
  · exact ((redirect_spec "abc123"
      ⟨[⟨1, "abc123", "https://x.com", 0, none, 0⟩], 2⟩ (by decide)).1
      ⟨1, "abc123", "https://x.com", 0, none, 0⟩ 9 (by decide) rfl
      (by decide)).2.1
  · exact (redirect_spec "abc123"
      ⟨[⟨1, "abc123", "https://x.com", 0, none, 0⟩], 2⟩ (by decide)).2.1
      ⟨1, "abc123", "https://x.com", 0, none, 0⟩ [4, 9] (by decide) rfl rfl
      (by decide) (by decide)
  · exact (redirect_spec "zzzzzz"
      ⟨[⟨1, "abc123", "https://x.com", 0, none, 0⟩], 2⟩ (by decide)).2.2
      (by decide) 9

/-! ## Helper lemmas: `LIKE` patterns and case folding -/

theorem ofNat_shift_noMeta :
    ∀ n, n < 91 → 65 ≤ n →
      Char.ofNat (n + 32) ≠ '%' ∧ Char.ofNat (n + 32) ≠ '_' ∧
      Char.ofNat (n + 32) ≠ '\\' := by
  decide

theorem toLower_noMeta (c : Char)
    (h : c ≠ '%' ∧ c ≠ '_' ∧ c ≠ '\\') :
    Char.toLower c ≠ '%' ∧ Char.toLower c ≠ '_' ∧ Char.toLower c ≠ '\\' := by
  by_cases hcase : c.toNat ≥ 65 ∧ c.toNat ≤ 90
  · have heq : Char.toLower c = Char.ofNat (c.toNat + 32) := by
      show (if c.toNat ≥ 65 ∧ c.toNat ≤ 90 then Char.ofNat (c.toNat + 32)
        else c) = _
      rw [if_pos hcase]
    rw [heq]
    exact ofNat_shift_noMeta c.toNat (by omega) (by omega)
  · have heq : Char.toLower c = c := by
      show (if c.toNat ≥ 65 ∧ c.toNat ≤ 90 then Char.ofNat (c.toNat + 32)
        else c) = c
      rw [if_neg hcase]
    rw [heq]
    exact h

theorem lowerL_noMeta {p : List Char} (h : noMeta p) : noMeta (lowerL p) := by
  intro c hc
  obtain ⟨c₀, hc₀, rfl⟩ := List.mem_map.mp hc
  exact toLower_noMeta c₀ (h c₀ hc₀)

theorem likeMatch_nil (s : List Char) : likeMatch [] s = s.isEmpty := rfl

theorem likeMatch_percent (ps s : List Char) :
    likeMatch ('%' :: ps) s =
      (List.range (s.length + 1)).any fun n => likeMatch ps (s.drop n) := by
  rw [likeMatch.eq_def]
  simp

theorem likeMatch_plain_nil {p : Char} (ps : List Char)
    (h1 : p ≠ '%') (h2 : p ≠ '_') (h3 : p ≠ '\\') :
    likeMatch (p :: ps) [] = false := by
  rw [likeMatch.eq_def]
  simp [h1, h2, h3]

theorem likeMatch_plain_cons {p : Char} (ps : List Char) (c : Char)
    (cs : List Char) (h1 : p ≠ '%') (h2 : p ≠ '_') (h3 : p ≠ '\\') :
    likeMatch (p :: ps) (c :: cs) = ((c == p) && likeMatch ps cs) := by
  rw [likeMatch.eq_def]
  simp [h1, h2, h3]

theorem likeMatch_trailing_percent {p : List Char} (hp : noMeta p) :
    ∀ s, likeMatch (p ++ ['%']) s = true ↔ p <+: s := by
  induction p with
  | nil =>
    intro s
    rw [List.nil_append, likeMatch_percent, List.any_eq_true]
    constructor
    · intro
      exact List.nil_prefix
    · intro
      refine ⟨s.length, ?_, ?_⟩
      · exact List.mem_range.mpr (Nat.lt_succ_self _)
      · rw [likeMatch_nil, List.drop_length]
        rfl
  | cons c cs ih =>
    intro s
    obtain ⟨h1, h2, h3⟩ := hp c (by simp)
    have hcs : noMeta cs := fun x hx => hp x (by simp [hx])
    cases s with
    | nil =>
      rw [List.cons_append, likeMatch_plain_nil _ h1 h2 h3]
      simp
    | cons d ds =>
      rw [List.cons_append, likeMatch_plain_cons _ _ _ h1 h2 h3,
        Bool.and_eq_true, beq_iff_eq, ih hcs ds, List.cons_prefix_cons]
      constructor
      · rintro ⟨rfl, hr⟩
        exact ⟨rfl, hr⟩
      · rintro ⟨rfl, hr⟩
        exact ⟨rfl, hr⟩

theorem likeMatch_leading_percent (ps s : List Char) :
    likeMatch ('%' :: ps) s = true ↔
      ∃ n, n ≤ s.length ∧ likeMatch ps (s.drop n) = true := by
  rw [likeMatch_percent, List.any_eq_true]
  constructor
  · rintro ⟨n, hn, h⟩
    exact ⟨n, by simpa [Nat.lt_succ_iff] using List.mem_range.mp hn, h⟩
  · rintro ⟨n, hn, h⟩
    exact ⟨n, List.mem_range.mpr (by omega), h⟩

theorem likeMatch_infix {p : List Char} (hp : noMeta p) (s : List Char) :
    likeMatch ('%' :: (p ++ ['%'])) s = true ↔ p <:+: s := by
  rw [likeMatch_leading_percent]
  constructor
  · rintro ⟨n, _, h⟩
    exact ((likeMatch_trailing_percent hp _).mp h).isInfix.trans
      (List.drop_suffix n s).isInfix
  · rintro ⟨t, u, htu⟩
    have hs : s = t ++ (p ++ u) := by
      rw [← htu, List.append_assoc]
    refine ⟨t.length, ?_, ?_⟩
    · rw [hs]
      simp
    · rw [hs, List.drop_left, likeMatch_trailing_percent hp]
      exact List.prefix_append p u

theorem pattern_toList (s : String) :
    ("%" ++ s ++ "%").toList = '%' :: (s.toList ++ ['%']) := by
  show ("%" ++ s ++ "%").data = '%' :: (s.data ++ ['%'])
  rw [String.data_append, String.data_append]
  rfl

theorem lowerL_pattern (s : String) :
    lowerL ('%' :: (s.toList ++ ['%'])) = '%' :: (lowerL s.toList ++ ['%']) := by
  unfold lowerL
  rw [List.map_cons, List.map_append]
  rfl

theorem ilike_eq_contains (s t : String) (hs : noMeta s.toList) :
    (ilike ("%" ++ s ++ "%") t = true) ↔ containsCI s t := by
  unfold ilike containsCI
  rw [pattern_toList, lowerL_pattern, likeMatch_infix (lowerL_noMeta hs)]

theorem ilike_eq_decide (s t : String) (hs : noMeta s.toList) :
    ilike ("%" ++ s ++ "%") t = decide (containsCI s t) := by
  by_cases h : containsCI s t
  · rw [(ilike_eq_contains s t hs).mpr h, decide_eq_true h]
  · have hfalse : ilike ("%" ++ s ++ "%") t = false := by
      cases hb : ilike ("%" ++ s ++ "%") t with
      | false => rfl
      | true => exact absurd ((ilike_eq_contains s t hs).mp hb) h
    rw [hfalse, decide_eq_false h]

theorem filter_pred_eq (s : String) (hs : noMeta s.toList) (l : Link) :
    (ilike ("%" ++ s ++ "%") l.code || ilike ("%" ++ s ++ "%") l.url) =
      decide (specMatch s l) := by
  rw [ilike_eq_decide s l.code hs, ilike_eq_decide s l.url hs]
  by_cases h1 : containsCI s l.code <;> by_cases h2 : containsCI s l.url <;>
    simp [specMatch, h1, h2]

/-! ## Helper lemmas: insertion sort by created_at descending -/

theorem insLink_perm (a : Link) :
    ∀ l : List Link, List.Perm (insLink a l) (a :: l) := by
  intro l
  induction l with
  | nil => exact List.Perm.refl _
  | cons b bs ih =>
    unfold insLink
    split
    · exact (ih.cons b).trans (List.Perm.swap a b bs)
    · exact List.Perm.refl _

theorem sortDesc_perm : ∀ l : List Link, List.Perm (sortDesc l) l := by
  intro l
  induction l with
  | nil => exact List.Perm.refl _
  | cons a l ih =>
    show List.Perm (insLink a (sortDesc l)) (a :: l)
    exact (insLink_perm a _).trans (ih.cons a)

theorem sortedDesc_insLink (a : Link) :
    ∀ l, sortedDesc l → sortedDesc (insLink a l) := by
  intro l
  induction l with
  | nil =>
    intro
    simp [insLink, sortedDesc]
  | cons b bs ih =>
    intro h
    unfold sortedDesc at h
    rw [List.pairwise_cons] at h
    unfold insLink
    split
    · next hab =>
      unfold sortedDesc
      rw [List.pairwise_cons]
      constructor
      · intro x hx
        rcases List.mem_cons.mp ((insLink_perm a bs).mem_iff.mp hx) with
          rfl | hxbs
        · exact hab
        · exact h.1 x hxbs
      · exact ih h.2
    · next hab =>
      have hba : b.created_at ≤ a.created_at := by omega
      unfold sortedDesc
      rw [List.pairwise_cons]
      constructor
      · intro x hx
        rcases List.mem_cons.mp hx with rfl | hxbs
        · exact hba
        · exact Nat.le_trans (h.1 x hxbs) hba
      · rw [List.pairwise_cons]
        exact h

theorem sortedDesc_sortDesc : ∀ l : List Link, sortedDesc (sortDesc l) := by
  intro l
  induction l with
  | nil => simp [sortDesc, sortedDesc]
  | cons a l ih => exact sortedDesc_insLink a _ ih

/-! ## Claim theorems: list/search -/

/-- C8 counterexample to the claim as stated: the non-empty filter `"_"`
is pushed into the `ILIKE` pattern `%_%`, where `_` is a single-character
wildcard, so a store whose only link has code `"abcdef"` is returned in
full even though neither its code nor its url contains the substring
`"_"`. -/
theorem list_search_counterexample :
    getLinks (some "_") ⟨[⟨1, "abcdef", "https://x.com", 0, none, 0⟩], 2⟩ =
      [⟨1, "abcdef", "https://x.com", 0, none, 0⟩] ∧
    ¬ specMatch "_" ⟨1, "abcdef", "https://x.com", 0, none, 0⟩ := by
  constructor
  · decide
  · decide

/-- C8 (amended): list/search returns all stored links ordered by
creation time descending, and for every non-empty filter string free of
the SQL `LIKE` metacharacters (`%`, `_`, backslash) it returns exactly
those links whose code or url case-insensitively contains the filter as a
substring; filters containing `LIKE` metacharacters are instead
interpreted as `ILIKE` wildcard patterns (see the counterexample). -/
theorem list_search_spec :
    ∀ (st : ServerState),
      (List.Perm (getLinks none st) st.links ∧
        sortedDesc (getLinks none st)) ∧
      (∀ s : String, s ≠ "" → noMeta s.toList →
        List.Perm (getLinks (some s) st)
          (st.links.filter (fun l => decide (specMatch s l))) ∧
        sortedDesc (getLinks (some s) st) ∧
        (∀ l, l ∈ getLinks (some s) st ↔ (l ∈ st.links ∧ specMatch s l))) := by
  intro st
  constructor
  · exact ⟨sortDesc_perm _, sortedDesc_sortDesc _⟩
  · intro s hs hmeta
    have hrows : getLinks (some s) st =
        sortDesc (st.links.filter (fun l =>
          ilike ("%" ++ s ++ "%") l.code || ilike ("%" ++ s ++ "%") l.url)) := by
      unfold getLinks
      rw [truthy_some hs]
    have hfilter : st.links.filter (fun l =>
        ilike ("%" ++ s ++ "%") l.code || ilike ("%" ++ s ++ "%") l.url) =
        st.links.filter (fun l => decide (specMatch s l)) :=
      List.filter_congr (fun l _ => filter_pred_eq s hmeta l)
    rw [hrows, hfilter]
    refine ⟨sortDesc_perm _, sortedDesc_sortDesc _, ?_⟩
    intro l
    rw [(sortDesc_perm _).mem_iff, List.mem_filter, decide_eq_true_eq]

theorem list_search_spec_witness :
    (List.Perm (getLinks none ⟨[⟨1, "gitlink", "https://x.com", 0, none, 0⟩], 2⟩)
      [⟨1, "gitlink", "https://x.com", 0, none, 0⟩] ∧
     sortedDesc (getLinks none
       ⟨[⟨1, "gitlink", "https://x.com", 0, none, 0⟩], 2⟩)) ∧
    (List.Perm (getLinks (some "git")
        ⟨[⟨1, "gitlink", "https://x.com", 0, none, 0⟩,
          ⟨2, "other", "https://y.com", 0, none, 1⟩], 3⟩)
      (List.filter (fun l => decide (specMatch "git" l))
        [⟨1, "gitlink", "https://x.com", 0, none, 0⟩,
         ⟨2, "other", "https://y.com", 0, none, 1⟩]) ∧
     sortedDesc (getLinks (some "git")
       ⟨[⟨1, "gitlink", "https://x.com", 0, none, 0⟩,
         ⟨2, "other", "https://y.com", 0, none, 1⟩], 3⟩) ∧
     (∀ l, l ∈ getLinks (some "git")
         ⟨[⟨1, "gitlink", "https://x.com", 0, none, 0⟩,
           ⟨2, "other", "https://y.com", 0, none, 1⟩], 3⟩ ↔
       (l ∈ [⟨1, "gitlink", "https://x.com", 0, none, 0⟩,
             ⟨2, "other", "https://y.com", 0, none, 1⟩] ∧ specMatch "git" l))) :=
  ⟨(list_search_spec ⟨[⟨1, "gitlink", "https://x.com", 0, none, 0⟩], 2⟩).1,
   (list_search_spec
      ⟨[⟨1, "gitlink", "https://x.com", 0, none, 0⟩,
        ⟨2, "other", "https://y.com", 0, none, 1⟩], 3⟩).2 "git" (by decide)
      (by decide)⟩

/-! ## Helper lemmas: state shape of each handler -/

theorem createLink_state_cases (isUrl : String → Bool) (rand : Nat → Fin 62)
    (urlField codeField : Option String) (now : Nat) (proto host : String)
    (st : ServerState) :
    (createLink isUrl rand urlField codeField now proto host st).2 = st ∨
    ∃ u c, (createLink isUrl rand urlField codeField now proto host st).2 =
      ⟨st.links ++ [⟨st.nextId, c, u, 0, none, now⟩], st.nextId + 1⟩ := by
  unfold createLink
  repeat' split
  all_goals first
  | exact Or.inl rfl
  | exact Or.inr ⟨_, _, rfl⟩

theorem deleteLink_state (code : String) (st : ServerState) :
    (deleteLink code st).2 =
      ⟨st.links.filter (fun l => !(l.code == code)), st.nextId⟩ := by
  by_cases hc : (st.links.filter (fun l => l.code == code)).length = 0
  · unfold deleteLink
    rw [if_pos hc]
  · unfold deleteLink
    rw [if_neg hc]

theorem redirectLink_state (c : String) (now : Nat) (st : ServerState) :
    (redirectLink c now st).2 = st ∨
    (redirectLink c now st).2 =
      ⟨st.links.map (fun x =>
         if x.code == c then
           { x with clicks := x.clicks + 1, last_clicked := some now }
         else x),
       st.nextId⟩ := by
  unfold redirectLink
  split
  · exact Or.inl rfl
  · split
    · exact Or.inl rfl
    · exact Or.inr rfl

theorem step_nextId (isUrl : String → Bool) (st : ServerState) (op : Op) :
    st.nextId ≤ (step isUrl st op).nextId := by
  cases op with
  | createOp u c r now p hst =>
    rcases createLink_state_cases isUrl r u c now p hst st with heq | ⟨u', c', heq⟩
    · show st.nextId ≤ (createLink isUrl r u c now p hst st).2.nextId
      rw [heq]
    · show st.nextId ≤ (createLink isUrl r u c now p hst st).2.nextId
      rw [heq]
      exact Nat.le_succ _
  | listOp s => exact Nat.le_refl _
  | deleteOp c =>
    show st.nextId ≤ (deleteLink c st).2.nextId
    rw [deleteLink_state]
  | redirectOp c now =>
    rcases redirectLink_state c now st with heq | heq <;>
      · show st.nextId ≤ (redirectLink c now st).2.nextId
        rw [heq]
  | statsOp p hst c => exact Nat.le_refl _

/-! ## Helper lemmas: well-formedness is preserved -/

theorem WF_initial : WF initialState := by
  refine ⟨?_, ?_, ?_⟩ <;> simp [initialState, WF]

theorem WF_insert {st : ServerState} (h : WF st) (u c : String) (now : Nat) :
    WF ⟨st.links ++ [⟨st.nextId, c, u, 0, none, now⟩], st.nextId + 1⟩ := by
  obtain ⟨h1, h2, h3⟩ := h
  refine ⟨?_, ?_, ?_⟩
  · intro l hl
    rcases List.mem_append.mp hl with hold | hnew
    · exact h1 l hold
    · rw [List.mem_singleton] at hnew
      rw [hnew]
      simp
  · intro l hl
    rcases List.mem_append.mp hl with hold | hnew
    · exact Nat.lt_trans (h2 l hold) (Nat.lt_succ_self _)
    · rw [List.mem_singleton] at hnew
      rw [hnew]
      exact Nat.lt_succ_self _
  · show (List.map (·.id) (st.links ++ [⟨st.nextId, c, u, 0, none, now⟩])).Nodup
    rw [List.map_append, List.nodup_append]
    refine ⟨h3, List.nodup_singleton _, ?_⟩
    intro x hx
    obtain ⟨l, hl, rfl⟩ := List.mem_map.mp hx
    intro hmem
    simp at hmem
    exact Nat.ne_of_lt (h2 l hl) hmem

theorem WF_update {st : ServerState} (h : WF st) (c : String) (now : Nat) :
    WF ⟨st.links.map (fun x =>
          if x.code == c then
            { x with clicks := x.clicks + 1, last_clicked := some now }
          else x),
        st.nextId⟩ := by
  obtain ⟨h1, h2, h3⟩ := h
  refine ⟨?_, ?_, ?_⟩
  · intro l hl
    obtain ⟨x, hx, rfl⟩ := List.mem_map.mp hl
    by_cases hc : x.code = c
    · simp [hc]
    · simpa [hc] using h1 x hx
  · intro l hl
    obtain ⟨x, hx, rfl⟩ := List.mem_map.mp hl
    by_cases hc : x.code = c
    · simpa [hc] using h2 x hx
    · simpa [hc] using h2 x hx
  · show (List.map (·.id) (List.map (fun x =>
        if x.code == c then
          ({ x with clicks := x.clicks + 1, last_clicked := some now } : Link)
        else x) st.links)).Nodup
    rw [List.map_map]
    have hcongr : ∀ x ∈ st.links, ((·.id) ∘ (fun x =>
        if x.code == c then
          ({ x with clicks := x.clicks + 1, last_clicked := some now } : Link)
        else x)) x = x.id := by
      intro x _
      by_cases hc : x.code = c <;> simp [hc]
    rw [List.map_congr_left hcongr]
    exact h3

theorem WF_step (isUrl : String → Bool) {st : ServerState} (h : WF st)
    (op : Op) : WF (step isUrl st op) := by
  cases op with
  | createOp u c r now p hst =>
    rcases createLink_state_cases isUrl r u c now p hst st with heq | ⟨u', c', heq⟩
    · show WF (createLink isUrl r u c now p hst st).2
      rw [heq]
      exact h
    · show WF (createLink isUrl r u c now p hst st).2
      rw [heq]
      exact WF_insert h u' c' now
  | listOp s => exact h
  | deleteOp c =>
    show WF (deleteLink c st).2
    rw [deleteLink_state]
    obtain ⟨h1, h2, h3⟩ := h
    refine ⟨?_, ?_, ?_⟩
    · intro l hl
      exact h1 l (List.mem_of_mem_filter hl)
    · intro l hl
      exact h2 l (List.mem_of_mem_filter hl)
    · exact ((List.filter_sublist st.links).map (·.id)).nodup h3
  | redirectOp c now =>
    rcases redirectLink_state c now st with heq | heq
    · show WF (redirectLink c now st).2
      rw [heq]
      exact h
    · show WF (redirectLink c now st).2
      rw [heq]
      exact WF_update h c now
  | statsOp p hst c => exact h

theorem step_back (isUrl : String → Bool) {st : ServerState}
    (op : Op) {l' : Link} (hl' : l' ∈ (step isUrl st op).links)
    (hid : l'.id < st.nextId) :
    ∃ l ∈ st.links, l.id = l'.id ∧ l.clicks ≤ l'.clicks := by
  cases op with
  | createOp u c r now p hst =>
    rcases createLink_state_cases isUrl r u c now p hst st with heq | ⟨u', c', heq⟩
    · rw [show step isUrl st (.createOp u c r now p hst) =
        (createLink isUrl r u c now p hst st).2 from rfl, heq] at hl'
      exact ⟨l', hl', rfl, Nat.le_refl _⟩
    · rw [show step isUrl st (.createOp u c r now p hst) =
        (createLink isUrl r u c now p hst st).2 from rfl, heq] at hl'
      rcases List.mem_append.mp hl' with hold | hnew
      · exact ⟨l', hold, rfl, Nat.le_refl _⟩
      · rw [List.mem_singleton] at hnew
        rw [hnew] at hid
        exact absurd hid (Nat.lt_irrefl _)
  | listOp s => exact ⟨l', hl', rfl, Nat.le_refl _⟩
  | deleteOp c =>
    rw [show step isUrl st (.deleteOp c) = (deleteLink c st).2 from rfl,
      deleteLink_state] at hl'
    exact ⟨l', List.mem_of_mem_filter hl', rfl, Nat.le_refl _⟩
  | redirectOp c now =>
    rcases redirectLink_state c now st with heq | heq
    · rw [show step isUrl st (.redirectOp c now) =
        (redirectLink c now st).2 from rfl, heq] at hl'
      exact ⟨l', hl', rfl, Nat.le_refl _⟩
    · rw [show step isUrl st (.redirectOp c now) =
        (redirectLink c now st).2 from rfl, heq] at hl'
      obtain ⟨x, hx, rfl⟩ := List.mem_map.mp hl'
      by_cases hc : x.code = c
      · refine ⟨x, hx, ?_, ?_⟩
        · simp [hc]
        · simp only [hc]
          rw [if_pos (by simp)]
          exact Nat.le_succ _
      · refine ⟨x, hx, ?_, ?_⟩
        · simp [hc]
        · simp [hc]
  | statsOp p hst c => exact ⟨l', hl', rfl, Nat.le_refl _⟩

theorem WF_foldl (isUrl : String → Bool) :
    ∀ (ops : List Op) (st : ServerState), WF st →
      WF (ops.foldl (step isUrl) st) := by
  intro ops
  induction ops with
  | nil => exact fun st h => h
  | cons op ops ih =>
    intro st h
    exact ih (step isUrl st op) (WF_step isUrl h op)

theorem foldl_nextId (isUrl : String → Bool) :
    ∀ (ops : List Op) (st : ServerState),
      st.nextId ≤ (ops.foldl (step isUrl) st).nextId := by
  intro ops
  induction ops with
  | nil => exact fun st => Nat.le_refl _
  | cons op ops ih =>
    intro st
    exact Nat.le_trans (step_nextId isUrl st op) (ih (step isUrl st op))

theorem foldl_back (isUrl : String → Bool) :
    ∀ (ops : List Op) (st : ServerState), WF st →
      ∀ {l' : Link}, l' ∈ (ops.foldl (step isUrl) st).links →
      l'.id < st.nextId →
      ∃ l ∈ st.links, l.id = l'.id ∧ l.clicks ≤ l'.clicks := by
  intro ops
  induction ops with
  | nil =>
    intro st _ l' hl' _
    exact ⟨l', hl', rfl, Nat.le_refl _⟩
  | cons op ops ih =>
    intro st h l' hl' hid
    have hid₁ : l'.id < (step isUrl st op).nextId :=
      Nat.lt_of_lt_of_le hid (step_nextId isUrl st op)
    obtain ⟨l₁, hl₁, heq₁, hle₁⟩ :=
      ih (step isUrl st op) (WF_step isUrl h op) hl' hid₁
    obtain ⟨l, hl, heq, hle⟩ :=
      step_back isUrl op hl₁ (by rw [heq₁]; exact hid)
    exact ⟨l, hl, heq.trans heq₁, Nat.le_trans hle hle₁⟩

theorem WF_run (isUrl : String → Bool) (ops : List Op) :
    WF (run isUrl ops) :=
  WF_foldl isUrl ops initialState WF_initial

/-! ## Claim theorem: data-model invariants -/

/-- C7: Over every sequence of operations run from the empty store: in any
reachable state, a stored link's last_clicked is null iff its clicks is 0;
and clicks is monotonically non-decreasing over a link's lifetime — if the
link (tracked by its serial id) is present after some prefix of the
operations and still present after further operations, its click count has
not decreased. -/
theorem link_invariants_spec :
    ∀ (isUrl : String → Bool) (ops ops₂ : List Op),
      (∀ l ∈ (run isUrl ops).links, (l.last_clicked = none ↔ l.clicks = 0)) ∧
      (∀ l l', l ∈ (run isUrl ops).links →
        l' ∈ (run isUrl (ops ++ ops₂)).links → l'.id = l.id →
        l.clicks ≤ l'.clicks) := by
  intro isUrl ops ops₂
  constructor
  · exact (WF_run isUrl ops).1
  · intro l l' hl hl' hid
    have hW := WF_run isUrl ops
    have hidlt : l.id < (run isUrl ops).nextId := hW.2.1 l hl
    have hrun : run isUrl (ops ++ ops₂) =
        ops₂.foldl (step isUrl) (run isUrl ops) := by
      unfold run
      rw [List.foldl_append]
    rw [hrun] at hl'
    obtain ⟨l₀, hl₀, heq, hle⟩ :=
      foldl_back isUrl ops₂ (run isUrl ops) hW hl'
        (by rw [hid]; exact hidlt)
    have hl₀l : l₀ = l :=
      List.inj_on_of_nodup_map hW.2.2 hl₀ hl (by rw [heq, hid])
    rw [← hl₀l]
    exact hle

theorem link_invariants_spec_witness :
    ((⟨1, "abc123", "https://x.com", 0, none, 5⟩ : Link).last_clicked = none ↔
      (⟨1, "abc123", "https://x.com", 0, none, 5⟩ : Link).clicks = 0) ∧
    (⟨1, "abc123", "https://x.com", 0, none, 5⟩ : Link).clicks ≤
      (⟨1, "abc123", "https://x.com", 1, some 9, 5⟩ : Link).clicks :=
  ⟨(link_invariants_spec (fun _ => true)
      [.createOp (some "https://x.com") (some "abc123")
        (fun _ => ⟨0, by decide⟩) 5 "http" "h"]
      [.redirectOp "abc123" 9]).1
      ⟨1, "abc123", "https://x.com", 0, none, 5⟩ (by decide),
   (link_invariants_spec (fun _ => true)
      [.createOp (some "https://x.com") (some "abc123")
        (fun _ => ⟨0, by decide⟩) 5 "http" "h"]
      [.redirectOp "abc123" 9]).2
      ⟨1, "abc123", "https://x.com", 0, none, 5⟩
      ⟨1, "abc123", "https://x.com", 1, some 9, 5⟩
      (by decide) (by decide) (by decide)⟩

end TinyUrl
